import Mathlib

/-!
Shallow embedding of `turing_simulator.py` (class `TuringMachine`): the
specification record, the validator `verify_specification`, the execution
loop `run`, and the configuration formatter `get_configuration`.

Python strings are Lean `String`, Python lists of symbols are `List String`
(`list(input_string)` yields one-character strings), the transition dict is
an association list keyed by `(state, symbol)` in insertion order, and the
mutable loop of `run` is a fueled recursion on an explicit run state: the
Python guard `step < max_steps` with `step` incremented exactly once per
non-breaking iteration corresponds to fuel `max_steps - step`.
-/

structure TM where
  Q : List String
  Sigma : List String
  Gamma : List String
  delta : List ((String × String) × (String × String × String))
  q0 : String
  qaccept : String
  qreject : String
  blank : String

/-- Python `''.join(cells)`: concatenation of a list of strings. -/
def joinCells : List String → String
  | [] => ""
  | s :: rest => s ++ joinCells rest

/-- Python slice `l[:i]` (negative indices count from the right). -/
def pyTake (l : List String) (i : Int) : List String :=
  if i < 0 then l.take (l.length - i.natAbs) else l.take i.toNat

/-- Python slice `l[i:]` (negative indices count from the right). -/
def pyDrop (l : List String) (i : Int) : List String :=
  if i < 0 then l.drop (l.length - i.natAbs) else l.drop i.toNat

/-- Helper for the trailing-blank trim of `get_configuration`, acting on the
reversed tape: `while len(tape) > 1 and tape[-1] == blank: tape.pop()`
becomes dropping leading blanks while more than one cell remains. -/
def stripLead (blank : String) : List String → List String
  | [] => []
  | [x] => [x]
  | x :: y :: rest => if x = blank then stripLead blank (y :: rest) else x :: y :: rest

/-- The trailing-blank trim performed by `get_configuration` on its private
copy of the tape: removes trailing blanks but never drops the last cell. -/
def trimTape (blank : String) (tape : List String) : List String :=
  (stripLead blank tape.reverse).reverse

/-- `TuringMachine.get_configuration` line 213-215 and 218-219: the trimmed
tape, re-seeded with a single blank if it came out empty. -/
def normTape (m : TM) (tape : List String) : List String :=
  let t := trimTape m.blank tape
  if t.isEmpty then [m.blank] else t

/-- `left_part = ''.join(tape[:head])` over the trimmed tape. -/
def left_part (m : TM) (tape : List String) (head : Int) : String :=
  joinCells (pyTake (normTape m tape) head)

/-- `right_part = ''.join(tape[head:])`, defaulting to the blank symbol when
empty. -/
def right_part (m : TM) (tape : List String) (head : Int) : String :=
  let r := joinCells (pyDrop (normTape m tape) head)
  if r = "" then m.blank else r

/-- `TuringMachine.get_configuration`: the `uqv` rendering
`left_part + state + right_part`. -/
def get_configuration (m : TM) (tape : List String) (state : String) (head : Int) : String :=
  left_part m tape head ++ state ++ right_part m tape head

/-- `TuringMachine.verify_specification` lines 86-113: the scalar checks, in
program order, each contributing its own error string. -/
def scalarErrors (m : TM) : List String :=
  (if m.Q.isEmpty then ["Conjunto de estados Q está vacío"] else []) ++
  (if m.Sigma.isEmpty then ["Alfabeto de entrada Σ está vacío"] else []) ++
  (if m.Gamma.isEmpty then ["Alfabeto de cinta Γ está vacío"] else []) ++
  (if m.blank ∈ m.Gamma then [] else ["Símbolo blanco " ++ m.blank ++ " no está en Γ"]) ++
  (if ∀ s ∈ m.Sigma, s ∈ m.Gamma then [] else ["Σ no es subconjunto de Γ"]) ++
  (if m.blank ∈ m.Sigma then ["Símbolo blanco no puede estar en Σ"] else []) ++
  (if m.q0 ∈ m.Q then [] else ["Estado inicial " ++ m.q0 ++ " no está en Q"]) ++
  (if m.qaccept ∈ m.Q then [] else ["Estado de aceptación " ++ m.qaccept ++ " no está en Q"]) ++
  (if m.qreject ∈ m.Q then [] else ["Estado de rechazo " ++ m.qreject ++ " no está en Q"]) ++
  (if m.qaccept = m.qreject then ["Estado de aceptación y rechazo no pueden ser iguales"] else [])

/-- One pass of the `for (state, symbol), (new_state, new_symbol, direction)
in self.delta.items()` loop body, lines 116-126. -/
def entryErrors (m : TM) (e : (String × String) × (String × String × String)) : List String :=
  (if e.1.1 ∈ m.Q then [] else ["Estado " ++ e.1.1 ++ " en δ no está en Q"]) ++
  (if e.1.2 ∈ m.Gamma then [] else ["Símbolo " ++ e.1.2 ++ " en δ no está en Γ"]) ++
  (if e.2.1 ∈ m.Q then [] else ["Estado " ++ e.2.1 ++ " en δ no está en Q"]) ++
  (if e.2.2.1 ∈ m.Gamma then [] else ["Símbolo " ++ e.2.2.1 ++ " en δ no está en Γ"]) ++
  (if e.2.2.2 = "L" ∨ e.2.2.2 = "R" then []
   else ["Dirección " ++ e.2.2.2 ++ " debe ser L o R"])

/-- `TuringMachine.verify_specification`: all accumulated errors. -/
def verify_specification (m : TM) : List String :=
  m.delta.foldl (fun errors e => errors ++ entryErrors m e) (scalarErrors m)

/-- The mutable run state of `TuringMachine.run`: tape, current state, head
index, step counter and the configurations recorded so far. -/
structure RunState where
  tape : List String
  state : String
  head : Int
  step : Nat
  configs : List String
deriving DecidableEq

/-- Lines 151-155: grow the tape when the head left the current bounds
(front insertion resetting the head to 0, or appending one blank). -/
def extendTape (m : TM) (tape : List String) (head : Int) : List String × Int :=
  let p := if head < 0 then (m.blank :: tape, (0 : Int)) else (tape, head)
  if (p.1.length : Int) ≤ p.2 then (p.1 ++ [m.blank], p.2) else p

/-- Lines 182-188: move the head, growing the tape at the front when a left
move would leave the bounds; an unrecognized direction leaves the head
unchanged. -/
def moveHead (m : TM) (tape : List String) (head : Int) (direction : String) :
    List String × Int :=
  if direction = "R" then (tape, head + 1)
  else if direction = "L" then
    (if head - 1 < 0 then (m.blank :: tape, (0 : Int)) else (tape, head - 1))
  else (tape, head)

/-- One iteration of the `while` body of `TuringMachine.run` (lines
150-197): returns the updated run state and whether the loop continues
(`false` exactly on the missing-transition `break`). -/
def loopIter (m : TM) (st : RunState) : RunState × Bool :=
  let p := extendTape m st.tape st.head
  let current_symbol := p.1.getD p.2.toNat m.blank
  match m.delta.lookup (st.state, current_symbol) with
  | none =>
      ({ tape := p.1, state := m.qreject, head := p.2, step := st.step,
         configs := st.configs ++ [get_configuration m p.1 m.qreject p.2] }, false)
  | some t =>
      let tape2 := p.1.set p.2.toNat t.2.1
      let q := moveHead m tape2 p.2 t.2.2
      let step2 := st.step + 1
      let configs2 :=
        if step2 < 100 ∨ step2 % 100 = 0 ∨ t.1 = m.qaccept ∨ t.1 = m.qreject
        then st.configs ++ [get_configuration m q.1 t.1 q.2]
        else st.configs
      ({ tape := q.1, state := t.1, head := q.2, step := step2, configs := configs2 }, true)

/-- The `while` loop of `run`, fueled by the remaining step budget
`max_steps - step`. -/
def runLoop (m : TM) : Nat → RunState → RunState
  | 0, st => st
  | fuel + 1, st =>
      if st.state ≠ m.qaccept ∧ st.state ≠ m.qreject then
        let r := loopIter m st
        if r.2 then runLoop m fuel r.1 else r.1
      else st

/-- Lines 133-136: the tape is seeded from the input string, one cell per
character, or a single blank for empty input. -/
def initTape (m : TM) (input : String) : List String :=
  if input = "" then [m.blank] else input.data.map Char.toString

/-- Lines 138-146: initial state, head and step counter, with the initial
configuration captured before any step. -/
def initState (m : TM) (input : String) : RunState :=
  let tape := initTape m input
  { tape := tape, state := m.q0, head := 0, step := 0,
    configs := [get_configuration m tape m.q0 0] }

/-- The run state after the `while` loop of `run` exits. -/
def runFinal (m : TM) (input : String) (max_steps : Nat) : RunState :=
  runLoop m max_steps (initState m input)

/-- `TuringMachine.run`: the recorded configurations and the result string,
with the step-limit test made first (lines 200-207). -/
def run (m : TM) (input : String) (max_steps : Nat := 10000) : List String × String :=
  let fin := runFinal m input max_steps
  let result :=
    if max_steps ≤ fin.step then "CICLO INFINITO (límite de pasos alcanzado)"
    else if fin.state = m.qaccept then "ACEPTADA"
    else if fin.state = m.qreject then "RECHAZADA"
    else "DESCONOCIDO"
  (fin.configs, result)

/-- The part of the run state that drives execution (tape, state, head):
the configuration recording never feeds back into stepping. -/
structure Core where
  tape : List String
  state : String
  head : Int
deriving DecidableEq

/-- Projection of a run state onto its execution core. -/
def coreOf (st : RunState) : Core :=
  { tape := st.tape, state := st.state, head := st.head }

/-- The loop guard `state != qaccept and state != qreject`, as a predicate
on cores. -/
def isTerm (m : TM) (c : Core) : Prop :=
  c.state = m.qaccept ∨ c.state = m.qreject

instance (m : TM) (c : Core) : Decidable (isTerm m c) := by
  unfold isTerm; infer_instance

/-- One iteration of the loop body restricted to the execution core: tape
extension, read, transition application; a missing transition moves the
state to `qreject` on the extended tape. -/
def coreNext (m : TM) (c : Core) : Core :=
  let p := extendTape m c.tape c.head
  let sym := p.1.getD p.2.toNat m.blank
  match m.delta.lookup (c.state, sym) with
  | none => { tape := p.1, state := m.qreject, head := p.2 }
  | some t =>
      let tape2 := p.1.set p.2.toNat t.2.1
      let q := moveHead m tape2 p.2 t.2.2
      { tape := q.1, state := t.1, head := q.2 }

/-- The execution core reached after `n` loop iterations from `c`. -/
def coreAt (m : TM) (c : Core) : Nat → Core
  | 0 => c
  | n + 1 => coreNext m (coreAt m c n)

/-- The configuration string `get_configuration` renders for a core. -/
def cfgOf (m : TM) (c : Core) : String :=
  get_configuration m c.tape c.state c.head

/-- The execution core at the start of `run`. -/
def initCore (m : TM) (input : String) : Core :=
  { tape := initTape m input, state := m.q0, head := 0 }

/-- Number of loop iterations a run from `c` performs within a budget of
`fuel` iterations: the index of the first terminal core, capped at `fuel`. -/
def firstTerm (m : TM) : Core → Nat → Nat
  | _, 0 => 0
  | c, fuel + 1 => if isTerm m c then 0 else firstTerm m (coreNext m c) fuel + 1

/-- The configurations the loop appends after the initial snapshot, starting
from core `c` with step counter `k` and `fuel` budgeted iterations. -/
def sampleTail (m : TM) : Nat → Core → Nat → List String
  | 0, _, _ => []
  | fuel + 1, c, k =>
      if isTerm m c then []
      else
        (if k + 1 < 100 ∨ (k + 1) % 100 = 0 ∨ isTerm m (coreNext m c)
         then [cfgOf m (coreNext m c)] else [])
          ++ sampleTail m fuel (coreNext m c) (k + 1)

/-- The symbol read during a core iteration, after the bounds extension. -/
def readSymC (m : TM) (c : Core) : String :=
  (extendTape m c.tape c.head).1.getD (extendTape m c.tape c.head).2.toNat m.blank

/-- Core-level tape and head after applying a found transition `t`. -/
def hitTapeC (m : TM) (c : Core) (t : String × String × String) : List String × Int :=
  moveHead m ((extendTape m c.tape c.head).1.set (extendTape m c.tape c.head).2.toNat t.2.1)
    (extendTape m c.tape c.head).2 t.2.2

/-- The capture condition of line 195 for the step with index `i` of the
run whose execution cores are `coreAt m c0`: the step counter is below 100,
or a multiple of 100, or the step landed on a terminal state. -/
def capturedStep (m : TM) (c0 : Core) (i : Nat) : Bool :=
  decide (i < 100) || decide (i % 100 = 0) || decide (isTerm m (coreAt m c0 i))

/-- A machine that accepts the empty input in exactly one step. -/
def acceptTM : TM :=
  { Q := ["q0", "qa", "qr"], Sigma := ["0"], Gamma := ["0", "B"],
    delta := [(("q0", "B"), ("qa", "B", "R"))],
    q0 := "q0", qaccept := "qa", qreject := "qr", blank := "B" }

/-- A machine with no transitions at all: the very first lookup misses. -/
def rejectTM : TM :=
  { Q := ["q0", "qa", "qr"], Sigma := ["0"], Gamma := ["0", "B"],
    delta := [],
    q0 := "q0", qaccept := "qa", qreject := "qr", blank := "B" }


/-- The symbol read at line 158, `tape[head]`, after the bounds extension. -/
def readSym (m : TM) (st : RunState) : String :=
  (extendTape m st.tape st.head).1.getD (extendTape m st.tape st.head).2.toNat m.blank

/-- The head-bounds invariant maintained by the run loop: the head is
non-negative, at most one past the last cell, and the tape is non-empty. -/
def headInv (st : RunState) : Prop :=
  0 ≤ st.head ∧ st.head ≤ (st.tape.length : Int) ∧ 1 ≤ st.tape.length

instance (st : RunState) : Decidable (headInv st) := by
  unfold headInv; infer_instance

/-- Tape and head after applying a found transition `t`: write `t`'s symbol
at the (bounds-extended) head, then move in `t`'s direction. -/
def hitTape (m : TM) (st : RunState) (t : String × String × String) : List String × Int :=
  moveHead m ((extendTape m st.tape st.head).1.set (extendTape m st.tape st.head).2.toNat t.2.1)
    (extendTape m st.tape st.head).2 t.2.2

/-- Number of elementary validator checks a specification violates: one per
failing scalar check and one per failing field check of each transition
entry. -/
def violationCount (m : TM) : Nat :=
  (if m.Q.isEmpty then 1 else 0) + (if m.Sigma.isEmpty then 1 else 0) +
  (if m.Gamma.isEmpty then 1 else 0) + (if m.blank ∈ m.Gamma then 0 else 1) +
  (if ∀ s ∈ m.Sigma, s ∈ m.Gamma then 0 else 1) + (if m.blank ∈ m.Sigma then 1 else 0) +
  (if m.q0 ∈ m.Q then 0 else 1) + (if m.qaccept ∈ m.Q then 0 else 1) +
  (if m.qreject ∈ m.Q then 0 else 1) + (if m.qaccept = m.qreject then 1 else 0) +
  (m.delta.map fun e =>
    (if e.1.1 ∈ m.Q then 0 else 1) + (if e.1.2 ∈ m.Gamma then 0 else 1) +
    (if e.2.1 ∈ m.Q then 0 else 1) + (if e.2.2.1 ∈ m.Gamma then 0 else 1) +
    (if e.2.2.2 = "L" ∨ e.2.2.2 = "R" then 0 else 1)).sum

/-- The seven consistency conditions of the validator, as one proposition. -/
def specOk (m : TM) : Prop :=
  ¬ m.Q.isEmpty ∧ ¬ m.Sigma.isEmpty ∧ ¬ m.Gamma.isEmpty ∧
  m.blank ∈ m.Gamma ∧ (∀ s ∈ m.Sigma, s ∈ m.Gamma) ∧ m.blank ∉ m.Sigma ∧
  m.q0 ∈ m.Q ∧ m.qaccept ∈ m.Q ∧ m.qreject ∈ m.Q ∧ m.qaccept ≠ m.qreject ∧
  ∀ e ∈ m.delta, e.1.1 ∈ m.Q ∧ e.1.2 ∈ m.Gamma ∧ e.2.1 ∈ m.Q ∧
    e.2.2.1 ∈ m.Gamma ∧ (e.2.2.2 = "L" ∨ e.2.2.2 = "R")

/-- Splitting a character list at the first occurrence of a marker: the
re-splitting step of the configuration round-trip. -/
def splitAtMarker (marker : List Char) : List Char → Option (List Char × List Char)
  | [] => if marker.isPrefixOf [] then some ([], []) else none
  | c :: rest =>
      if marker.isPrefixOf (c :: rest) then some ([], (c :: rest).drop marker.length)
      else (splitAtMarker marker rest).map fun q => (c :: q.1, q.2)

/-- A symbol that occupies exactly one character, as every cell produced by
`list(input_string)` does. -/
def oneChar (s : String) : Prop := s.data.length = 1

instance (s : String) : Decidable (oneChar s) := by
  unfold oneChar; infer_instance

/-- A specification whose only flaw is two transitions with invalid
directions: both violations fall in the transition-entry check category. -/
def twoBadDirTM : TM :=
  { Q := ["q0", "qa", "qr"], Sigma := ["0"], Gamma := ["0", "B"],
    delta := [(("q0", "0"), ("q0", "0", "X")), (("q0", "B"), ("q0", "B", "Y"))],
    q0 := "q0", qaccept := "qa", qreject := "qr", blank := "B" }

theorem str_append_empty (s : String) : s ++ "" = s := by
  apply String.ext; simp [String.data_append]

theorem str_empty_append (s : String) : "" ++ s = s := by
  apply String.ext; simp [String.data_append]

theorem loopIter_miss (m : TM) (st : RunState)
    (h : m.delta.lookup (st.state, readSym m st) = none) :
    loopIter m st =
      ({ tape := (extendTape m st.tape st.head).1, state := m.qreject,
         head := (extendTape m st.tape st.head).2, step := st.step,
         configs := st.configs ++
           [get_configuration m (extendTape m st.tape st.head).1 m.qreject
             (extendTape m st.tape st.head).2] }, false) := by
  simp only [loopIter]
  simp only [readSym] at h
  rw [h]

theorem loopIter_hit (m : TM) (st : RunState) (t : String × String × String)
    (h : m.delta.lookup (st.state, readSym m st) = some t) :
    loopIter m st =
      ({ tape := (hitTape m st t).1, state := t.1, head := (hitTape m st t).2,
         step := st.step + 1,
         configs :=
           if st.step + 1 < 100 ∨ (st.step + 1) % 100 = 0 ∨ t.1 = m.qaccept ∨ t.1 = m.qreject
           then st.configs ++ [get_configuration m (hitTape m st t).1 t.1 (hitTape m st t).2]
           else st.configs }, true) := by
  simp only [loopIter]
  simp only [readSym] at h
  rw [h]
  rfl

theorem loopIter_cont_step (m : TM) (st : RunState) (h : (loopIter m st).2 = true) :
    (loopIter m st).1.step = st.step + 1 := by
  cases hl : m.delta.lookup (st.state, readSym m st) with
  | none => rw [loopIter_miss m st hl] at h; cases h
  | some t => rw [loopIter_hit m st t hl]

theorem loopIter_break_parts (m : TM) (st : RunState) (h : (loopIter m st).2 = false) :
    (loopIter m st).1.state = m.qreject ∧ (loopIter m st).1.step = st.step := by
  cases hl : m.delta.lookup (st.state, readSym m st) with
  | none => rw [loopIter_miss m st hl]; exact ⟨rfl, rfl⟩
  | some t => rw [loopIter_hit m st t hl] at h; cases h

theorem runLoop_succ_term (m : TM) (fuel : Nat) (st : RunState)
    (h : st.state = m.qaccept ∨ st.state = m.qreject) :
    runLoop m (fuel + 1) st = st := by
  rw [runLoop]
  have : ¬ (st.state ≠ m.qaccept ∧ st.state ≠ m.qreject) := by tauto
  simp only [this, if_neg, if_false]

theorem runLoop_succ_cont (m : TM) (fuel : Nat) (st : RunState)
    (h : ¬ (st.state = m.qaccept ∨ st.state = m.qreject))
    (h2 : (loopIter m st).2 = true) :
    runLoop m (fuel + 1) st = runLoop m fuel (loopIter m st).1 := by
  rw [runLoop]
  have hg : st.state ≠ m.qaccept ∧ st.state ≠ m.qreject := by tauto
  simp only [h2, if_pos]
  exact if_pos hg

theorem runLoop_succ_break (m : TM) (fuel : Nat) (st : RunState)
    (h : ¬ (st.state = m.qaccept ∨ st.state = m.qreject))
    (h2 : (loopIter m st).2 = false) :
    runLoop m (fuel + 1) st = (loopIter m st).1 := by
  rw [runLoop]
  have hg : st.state ≠ m.qaccept ∧ st.state ≠ m.qreject := by tauto
  simp only [h2, Bool.false_eq_true, if_false]
  exact if_pos hg

theorem runLoop_exhaust (m : TM) (fuel : Nat) : ∀ st : RunState,
    (runLoop m fuel st).state = m.qaccept ∨ (runLoop m fuel st).state = m.qreject ∨
    (runLoop m fuel st).step = st.step + fuel := by
  induction fuel with
  | zero => intro st; right; right; rfl
  | succ n ih =>
      intro st
      by_cases hterm : st.state = m.qaccept ∨ st.state = m.qreject
      · rw [runLoop_succ_term m n st hterm]; tauto
      · cases h2 : (loopIter m st).2 with
        | false =>
            rw [runLoop_succ_break m n st hterm h2]
            right; left; exact (loopIter_break_parts m st h2).1
        | true =>
            rw [runLoop_succ_cont m n st hterm h2]
            rcases ih (loopIter m st).1 with ha | hr | hs
            · left; exact ha
            · right; left; exact hr
            · right; right; rw [hs, loopIter_cont_step m st h2]; omega

/-- C9: every run terminates in one of exactly three results — `ACEPTADA`,
`RECHAZADA` or the step-limit message — and the `DESCONOCIDO` fallback
branch of `run` is unreachable for every machine, input and step limit. -/
theorem c9_three_results (m : TM) (input : String) (max_steps : Nat) :
    ((run m input max_steps).2 = "ACEPTADA" ∨ (run m input max_steps).2 = "RECHAZADA" ∨
      (run m input max_steps).2 = "CICLO INFINITO (límite de pasos alcanzado)") ∧
    (run m input max_steps).2 ≠ "DESCONOCIDO" := by
  have hx : (runFinal m input max_steps).state = m.qaccept ∨
      (runFinal m input max_steps).state = m.qreject ∨
      (runFinal m input max_steps).step = 0 + max_steps :=
    runLoop_exhaust m max_steps (initState m input)
  have hmain : (run m input max_steps).2 = "ACEPTADA" ∨ (run m input max_steps).2 = "RECHAZADA" ∨
      (run m input max_steps).2 = "CICLO INFINITO (límite de pasos alcanzado)" := by
    by_cases h1 : max_steps ≤ (runFinal m input max_steps).step
    · right; right; simp only [run, h1, if_pos]
    · rcases hx with ha | hr | hs
      · left; simp only [run, h1, if_neg, if_false]
        rw [if_pos ha]
      · by_cases hacc : (runFinal m input max_steps).state = m.qaccept
        · left; simp only [run, h1, if_neg, if_false]; rw [if_pos hacc]
        · right; left; simp only [run, h1, if_neg, if_false]
          rw [if_neg hacc, if_pos hr]
      · exact absurd (by omega : max_steps ≤ (runFinal m input max_steps).step) h1
  refine ⟨hmain, ?_⟩
  rcases hmain with h | h | h <;> rw [h] <;> decide

/-- C6: the engine is a pure function of the specification, the input string
and the step limit — two runs with the same arguments produce the same
trace and the same result, byte for byte. -/
theorem c6_determinism (m : TM) (input : String) (max_steps : Nat)
    (out1 out2 : List String × String)
    (h1 : out1 = run m input max_steps) (h2 : out2 = run m input max_steps) :
    out1 = out2 ∧ out1.1 = out2.1 ∧ out1.2 = out2.2 := by
  subst h1; subst h2; exact ⟨rfl, rfl, rfl⟩

theorem c6_witness :
    ((["q0B", "BqaB"], "ACEPTADA") : List String × String) =
      ((["q0B", "BqaB"], "ACEPTADA") : List String × String) :=
  (c6_determinism acceptTM "" 10 _ _ (by decide) (by decide)).1

/-- C1 counterexample: `acceptTM` reaches `qaccept` on its first step, but
with `max_steps = 1` the loop exits with the step counter already at the
maximum, and `run` reports the step-limit result rather than acceptance,
because line 200 tests `step >= max_steps` before testing the state. -/
theorem c1_counterexample :
    (runFinal acceptTM "" 1).state = acceptTM.qaccept ∧
    (run acceptTM "" 1).2 = "CICLO INFINITO (límite de pasos alcanzado)" ∧
    (run acceptTM "" 1).2 ≠ "ACEPTADA" := by decide

/-- C1 amended: the result is `ACEPTADA` (resp. `RECHAZADA`) when the loop
exits in the accepting (resp. rejecting) state with the step counter still
strictly below the maximum; whenever the counter has reached the maximum
the result is the step-limit message, even if the final state is terminal —
the step-limit test takes priority, it is not a mere fallback. -/
theorem c1_amended (m : TM) (input : String) (max_steps : Nat) :
    ((runFinal m input max_steps).step < max_steps →
      ((runFinal m input max_steps).state = m.qaccept →
        (run m input max_steps).2 = "ACEPTADA") ∧
      ((runFinal m input max_steps).state = m.qreject →
        (runFinal m input max_steps).state ≠ m.qaccept →
        (run m input max_steps).2 = "RECHAZADA")) ∧
    (max_steps ≤ (runFinal m input max_steps).step →
      (run m input max_steps).2 = "CICLO INFINITO (límite de pasos alcanzado)") := by
  constructor
  · intro hlt
    have h1 : ¬ max_steps ≤ (runFinal m input max_steps).step := by omega
    constructor
    · intro ha
      simp only [run, h1, if_neg, if_false]
      rw [if_pos ha]
    · intro hr hna
      simp only [run, h1, if_neg, if_false]
      rw [if_neg hna, if_pos hr]
  · intro hge
    simp only [run, hge, if_pos]

theorem c1_amended_witness : (run acceptTM "" 10).2 = "ACEPTADA" :=
  ((c1_amended acceptTM "" 10).1 (by decide)).1 (by decide)

/-- C10: the missing-transition rejection path does not increment the step
counter — `loopIter` leaves `step` untouched on a miss and breaks out, so a
run that applied `k` transitions before hitting an undefined `(state,
symbol)` pair ends with its counter still equal to `k`. -/
theorem c10_reject_step_not_counted (m : TM) (st : RunState) (fuel : Nat)
    (h : m.delta.lookup (st.state, readSym m st) = none)
    (h1 : st.state ≠ m.qaccept) (h2 : st.state ≠ m.qreject) :
    (loopIter m st).1.step = st.step ∧ (loopIter m st).2 = false ∧
    (runLoop m (fuel + 1) st).step = st.step := by
  have hm := loopIter_miss m st h
  have hsnd : (loopIter m st).2 = false := by rw [hm]
  refine ⟨by rw [hm], hsnd, ?_⟩
  rw [runLoop_succ_break m fuel st (by tauto) hsnd, hm]

theorem c10_witness : (runLoop rejectTM 10 (initState rejectTM "")).step = 0 :=
  (c10_reject_step_not_counted rejectTM (initState rejectTM "") 9
    (by decide) (by decide) (by decide)).2.2

theorem extendTape_length (m : TM) (tape : List String) (head : Int) :
    tape.length ≤ (extendTape m tape head).1.length := by
  unfold extendTape
  by_cases h : head < 0 <;> simp only [h, if_pos, if_neg, if_false] <;> split <;>
    simp only [List.length_append, List.length_cons, List.length_singleton] <;> omega

theorem moveHead_length (m : TM) (tape : List String) (head : Int) (d : String) :
    tape.length ≤ (moveHead m tape head d).1.length := by
  unfold moveHead
  split
  · simp
  · split
    · split <;> simp
    · simp

theorem loopIter_tape_length (m : TM) (st : RunState) :
    st.tape.length ≤ (loopIter m st).1.tape.length := by
  cases hl : m.delta.lookup (st.state, readSym m st) with
  | none =>
      rw [loopIter_miss m st hl]
      exact extendTape_length m st.tape st.head
  | some t =>
      rw [loopIter_hit m st t hl]
      show st.tape.length ≤ (hitTape m st t).1.length
      calc st.tape.length ≤ (extendTape m st.tape st.head).1.length :=
            extendTape_length m st.tape st.head
        _ = ((extendTape m st.tape st.head).1.set
              (extendTape m st.tape st.head).2.toNat t.2.1).length := by
            rw [List.length_set]
        _ ≤ _ := moveHead_length m _ _ _

theorem runLoop_tape_length (m : TM) (fuel : Nat) : ∀ st : RunState,
    st.tape.length ≤ (runLoop m fuel st).tape.length := by
  induction fuel with
  | zero => intro st; exact le_refl _
  | succ n ih =>
      intro st
      by_cases hterm : st.state = m.qaccept ∨ st.state = m.qreject
      · rw [runLoop_succ_term m n st hterm]
      · cases h2 : (loopIter m st).2 with
        | false =>
            rw [runLoop_succ_break m n st hterm h2]
            exact loopIter_tape_length m st
        | true =>
            rw [runLoop_succ_cont m n st hterm h2]
            exact le_trans (loopIter_tape_length m st) (ih (loopIter m st).1)

/-- C7: the live tape never shrinks — each loop iteration, and hence the
whole loop, can only preserve or grow the tape; the trailing-blank trim of
`get_configuration` acts on the snapshot copy `tape[:]`, never on the tape
that drives subsequent steps. -/
theorem c7_tape_length_monotone (m : TM) :
    (∀ st : RunState, st.tape.length ≤ (loopIter m st).1.tape.length) ∧
    (∀ (fuel : Nat) (st : RunState), st.tape.length ≤ (runLoop m fuel st).tape.length) ∧
    (∀ (input : String) (max_steps : Nat),
      (initTape m input).length ≤ (runFinal m input max_steps).tape.length) :=
  ⟨loopIter_tape_length m, runLoop_tape_length m,
    fun input max_steps => runLoop_tape_length m max_steps (initState m input)⟩

theorem extendTape_bounds (m : TM) (tape : List String) (head : Int)
    (h0 : 0 ≤ head) (h1 : head ≤ (tape.length : Int)) :
    (extendTape m tape head).2 = head ∧
    0 ≤ (extendTape m tape head).2 ∧
    (extendTape m tape head).2 < ((extendTape m tape head).1.length : Int) ∧
    (head < (tape.length : Int) → (extendTape m tape head).1 = tape) ∧
    (head = (tape.length : Int) → (extendTape m tape head).1 = tape ++ [m.blank]) := by
  have hn : ¬ head < 0 := by omega
  by_cases he : (tape.length : Int) ≤ head
  · have hext : extendTape m tape head = (tape ++ [m.blank], head) := by
      unfold extendTape
      simp only [hn, if_neg, if_false, he, if_pos]
    rw [hext]
    have hl2 : (((tape ++ [m.blank]).length : Nat) : Int) = (tape.length : Int) + 1 := by
      push_cast [List.length_append]
      norm_num
    exact ⟨rfl, h0, by rw [hl2]; omega, fun hlt => by omega, fun _ => rfl⟩
  · have hext : extendTape m tape head = (tape, head) := by
      unfold extendTape
      simp only [hn, if_neg, if_false, he]
    rw [hext]
    refine ⟨rfl, h0, ?_, fun _ => rfl, fun hq => absurd hq (by omega)⟩
    show head < (tape.length : Int)
    omega

theorem moveHead_bounds (m : TM) (tape : List String) (head : Int) (d : String)
    (h0 : 0 ≤ head) (h1 : head < (tape.length : Int)) :
    0 ≤ (moveHead m tape head d).2 ∧
    (moveHead m tape head d).2 ≤ ((moveHead m tape head d).1.length : Int) := by
  unfold moveHead
  split
  · refine ⟨?_, ?_⟩
    · show 0 ≤ head + 1
      omega
    · show head + 1 ≤ (tape.length : Int)
      omega
  · split
    · split
      · refine ⟨le_refl 0, ?_⟩
        show (0 : Int) ≤ ((m.blank :: tape).length : Int)
        omega
      · refine ⟨?_, ?_⟩
        · show 0 ≤ head - 1
          omega
        · show head - 1 ≤ (tape.length : Int)
          omega
    · refine ⟨h0, ?_⟩
      show head ≤ (tape.length : Int)
      omega

theorem loopIter_headInv (m : TM) (st : RunState) (h : headInv st) :
    headInv (loopIter m st).1 := by
  obtain ⟨h0, h1, h2⟩ := h
  obtain ⟨heq, hp0, hp1, _, _⟩ := extendTape_bounds m st.tape st.head h0 h1
  have hlen := loopIter_tape_length m st
  cases hl : m.delta.lookup (st.state, readSym m st) with
  | none =>
      rw [loopIter_miss m st hl]
      have hext := extendTape_length m st.tape st.head
      refine ⟨hp0, ?_, ?_⟩
      · show (extendTape m st.tape st.head).2 ≤ ((extendTape m st.tape st.head).1.length : Int)
        omega
      · show 1 ≤ (extendTape m st.tape st.head).1.length
        omega
  | some t =>
      have hset1 : (extendTape m st.tape st.head).2 <
          ((((extendTape m st.tape st.head).1.set
              (extendTape m st.tape st.head).2.toNat t.2.1).length : Nat) : Int) := by
        rw [List.length_set]
        exact hp1
      obtain ⟨hm0, hm1⟩ := moveHead_bounds m
        ((extendTape m st.tape st.head).1.set (extendTape m st.tape st.head).2.toNat t.2.1)
        (extendTape m st.tape st.head).2 t.2.2 hp0 hset1
      rw [loopIter_hit m st t hl] at hlen ⊢
      refine ⟨hm0, hm1, ?_⟩
      show 1 ≤ (hitTape m st t).1.length
      exact le_trans h2 hlen

theorem initState_headInv (m : TM) (input : String) : headInv (initState m input) := by
  refine ⟨le_refl 0, ?_, ?_⟩ <;> unfold initState initTape <;> simp only []
  · by_cases h : input = "" <;> simp [h]
  · by_cases h : input = ""
    · simp [h]
    · simp only [h, if_neg, if_false, List.length_map]
      have : input.data ≠ [] := fun hd => h (String.ext (hd.trans rfl))
      cases hq : input.data with
      | nil => exact absurd hq this
      | cons a l => simp

/-- C8: at the start of every run the head invariant holds, every loop
iteration preserves it, and under it the bounds-extension step of lines
151-155 always leaves the head inside `[0, length)` before the read,
growing the tape by exactly one blank cell (appended at the right end when
the head sits exactly past the last cell, unchanged otherwise); a left move
from cell 0 inserts one blank at the front and resets the head to 0. -/
theorem c8_head_in_bounds (m : TM) :
    (∀ input : String, headInv (initState m input)) ∧
    (∀ st : RunState, headInv st → headInv (loopIter m st).1) ∧
    (∀ st : RunState, headInv st →
      (extendTape m st.tape st.head).2 = st.head ∧
      0 ≤ (extendTape m st.tape st.head).2 ∧
      (extendTape m st.tape st.head).2 < ((extendTape m st.tape st.head).1.length : Int) ∧
      (st.head < (st.tape.length : Int) → (extendTape m st.tape st.head).1 = st.tape) ∧
      (st.head = (st.tape.length : Int) →
        (extendTape m st.tape st.head).1 = st.tape ++ [m.blank])) ∧
    (∀ tape : List String, moveHead m tape 0 "L" = (m.blank :: tape, 0)) := by
  refine ⟨initState_headInv m, loopIter_headInv m,
    fun st h => extendTape_bounds m st.tape st.head h.1 h.2.1, fun tape => ?_⟩
  unfold moveHead
  have h1 : ¬ ("L" : String) = "R" := by decide
  simp only [h1, if_neg, if_false]
  norm_num

theorem c8_witness : headInv (loopIter acceptTM (initState acceptTM "01")).1 :=
  (c8_head_in_bounds acceptTM).2.1 (initState acceptTM "01") (by decide)

theorem joinCells_nil : joinCells ([] : List String) = "" := rfl

theorem joinCells_single (s : String) : joinCells [s] = s := by
  show s ++ joinCells [] = s
  rw [joinCells_nil]
  exact str_append_empty s

theorem trimTape_single (b x : String) : trimTape b [x] = [x] := rfl

theorem get_configuration_blank (m : TM) (q : String) :
    get_configuration m [m.blank] q 0 = q ++ m.blank := by
  have hnorm : normTape m [m.blank] = [m.blank] := by
    unfold normTape
    rw [trimTape_single]
    rfl
  have hdrop : pyDrop [m.blank] 0 = [m.blank] := by
    unfold pyDrop
    norm_num
  have htake : pyTake [m.blank] 0 = [] := by
    unfold pyTake
    norm_num
  have hleft : left_part m [m.blank] 0 = "" := by
    unfold left_part
    rw [hnorm, htake, joinCells_nil]
  have hright : right_part m [m.blank] 0 = m.blank := by
    simp only [right_part]
    rw [hnorm, hdrop, joinCells_single]
    split <;> rfl
  unfold get_configuration
  rw [hleft, hright, str_empty_append]

theorem readSym_components (m : TM) (st : RunState) (tape : List String) (head : Int)
    (ht : st.tape = tape) (hh : st.head = head) :
    readSym m st = (extendTape m tape head).1.getD (extendTape m tape head).2.toNat m.blank := by
  unfold readSym
  rw [ht, hh]

/-- C2: a missing transition is handled without error — the iteration
switches the state to `qreject`, appends exactly one configuration (the
rejecting one, on the extended tape), leaves the step counter alone and
breaks out of the loop; in particular a machine with no transition for
`(initialState, blankSymbol)` rejects the empty input with a trace of
exactly one entry beyond the initial snapshot. -/
theorem c2_missing_transition_rejects :
    (∀ (m : TM) (st : RunState),
      m.delta.lookup (st.state, readSym m st) = none →
      (loopIter m st).2 = false ∧ (loopIter m st).1.state = m.qreject ∧
      (loopIter m st).1.step = st.step ∧
      (loopIter m st).1.configs = st.configs ++
        [get_configuration m (extendTape m st.tape st.head).1 m.qreject
          (extendTape m st.tape st.head).2]) ∧
    (∀ (m : TM) (max_steps : Nat),
      m.delta.lookup (m.q0, m.blank) = none →
      m.q0 ≠ m.qaccept → m.q0 ≠ m.qreject → m.qaccept ≠ m.qreject → 0 < max_steps →
      run m "" max_steps = ([m.q0 ++ m.blank, m.qreject ++ m.blank], "RECHAZADA") ∧
      (run m "" max_steps).1.length = 2) := by
  constructor
  · intro m st h
    rw [loopIter_miss m st h]
    exact ⟨rfl, rfl, rfl, rfl⟩
  · intro m max_steps hmiss hq1 hq2 hne hpos
    obtain ⟨n, rfl⟩ : ∃ n, max_steps = n + 1 := ⟨max_steps - 1, by omega⟩
    have htape : initTape m "" = [m.blank] := by unfold initTape; simp
    have hst : initState m "" =
        { tape := [m.blank], state := m.q0, head := 0, step := 0,
          configs := [get_configuration m [m.blank] m.q0 0] } := by
      unfold initState
      rw [htape]
    have hext : extendTape m [m.blank] 0 = ([m.blank], 0) := by
      unfold extendTape
      norm_num
    have hread : readSym m (initState m "") = m.blank := by
      rw [readSym_components m (initState m "") [m.blank] 0 (by rw [hst]) (by rw [hst]), hext]
      rfl
    have hstate : (initState m "").state = m.q0 := by rw [hst]
    have hmiss2 : m.delta.lookup ((initState m "").state, readSym m (initState m "")) = none := by
      rw [hstate, hread]; exact hmiss
    have hbreak := loopIter_miss m (initState m "") hmiss2
    have hterm : ¬ ((initState m "").state = m.qaccept ∨ (initState m "").state = m.qreject) := by
      rw [hstate]; tauto
    have hsnd : (loopIter m (initState m "")).2 = false := by rw [hbreak]
    have hfin : runFinal m "" (n + 1) = (loopIter m (initState m "")).1 :=
      runLoop_succ_break m n _ hterm hsnd
    have hext2 : extendTape m (initState m "").tape (initState m "").head = ([m.blank], 0) := by
      rw [show (initState m "").tape = [m.blank] from by rw [hst],
          show (initState m "").head = (0 : Int) from by rw [hst]]
      exact hext
    have hfstate : (runFinal m "" (n + 1)).state = m.qreject := by rw [hfin, hbreak]
    have hfstep : (runFinal m "" (n + 1)).step = 0 := by
      rw [hfin, hbreak]
      show (initState m "").step = 0
      rw [hst]
    have hfconfigs : (runFinal m "" (n + 1)).configs =
        [m.q0 ++ m.blank, m.qreject ++ m.blank] := by
      rw [hfin, hbreak]
      show (initState m "").configs ++
          [get_configuration m (extendTape m (initState m "").tape (initState m "").head).1
            m.qreject (extendTape m (initState m "").tape (initState m "").head).2] = _
      rw [hext2, show (initState m "").configs = [get_configuration m [m.blank] m.q0 0]
        from by rw [hst]]
      rw [get_configuration_blank, get_configuration_blank]
      rfl
    have h1 : (run m "" (n + 1)).1 = [m.q0 ++ m.blank, m.qreject ++ m.blank] := hfconfigs
    have h2 : (run m "" (n + 1)).2 = "RECHAZADA" := by
      show (if n + 1 ≤ (runFinal m "" (n + 1)).step then
          "CICLO INFINITO (límite de pasos alcanzado)"
        else if (runFinal m "" (n + 1)).state = m.qaccept then "ACEPTADA"
        else if (runFinal m "" (n + 1)).state = m.qreject then "RECHAZADA"
        else "DESCONOCIDO") = "RECHAZADA"
      rw [hfstep, if_neg (by omega), hfstate, if_neg (fun hq => hne hq.symm), if_pos rfl]
    refine ⟨Prod.ext_iff.mpr ⟨h1, h2⟩, ?_⟩
    rw [h1]
    rfl

theorem c2_witness :
    run rejectTM "" 7 = (["q0" ++ "B", "qr" ++ "B"], "RECHAZADA") ∧
    (run rejectTM "" 7).1.length = 2 :=
  (c2_missing_transition_rejects.2 rejectTM 7 (by decide) (by decide) (by decide)
    (by decide) (by decide))

theorem if_nil_iff_pos {c : Prop} [Decidable c] (x : String) :
    ((if c then ([] : List String) else [x]) = []) ↔ c := by
  split <;> simp_all

theorem if_nil_iff_neg {c : Prop} [Decidable c] (x : String) :
    ((if c then [x] else ([] : List String)) = []) ↔ ¬ c := by
  split <;> simp_all

theorem length_if_nil_pos {c : Prop} [Decidable c] (x : String) :
    (if c then ([] : List String) else [x]).length = if c then 0 else 1 := by
  split <;> rfl

theorem length_if_nil_neg {c : Prop} [Decidable c] (x : String) :
    (if c then [x] else ([] : List String)).length = if c then 1 else 0 := by
  split <;> rfl

theorem foldl_append_flatten {α : Type} (f : α → List String) (l : List α) :
    ∀ init : List String,
      l.foldl (fun acc e => acc ++ f e) init = init ++ (l.map f).flatten := by
  induction l with
  | nil => intro init; simp
  | cons a t ih =>
      intro init
      simp only [List.foldl_cons, List.map_cons, List.flatten_cons, ih]
      rw [List.append_assoc]

theorem verify_eq (m : TM) :
    verify_specification m = scalarErrors m ++ (m.delta.map (entryErrors m)).flatten :=
  foldl_append_flatten (entryErrors m) m.delta (scalarErrors m)

theorem entryErrors_length (m : TM) (e : (String × String) × (String × String × String)) :
    (entryErrors m e).length =
      (if e.1.1 ∈ m.Q then 0 else 1) + (if e.1.2 ∈ m.Gamma then 0 else 1) +
      (if e.2.1 ∈ m.Q then 0 else 1) + (if e.2.2.1 ∈ m.Gamma then 0 else 1) +
      (if e.2.2.2 = "L" ∨ e.2.2.2 = "R" then 0 else 1) := by
  unfold entryErrors
  simp only [List.length_append, length_if_nil_pos]

/-- C3 counterexample: `twoBadDirTM` violates only the transition-entry
check category (all scalar checks pass) yet the validator reports two
errors for it, not exactly one. -/
theorem c3_counterexample :
    scalarErrors twoBadDirTM = [] ∧
    verify_specification twoBadDirTM =
      ["Dirección X debe ser L o R", "Dirección Y debe ser L o R"] ∧
    (verify_specification twoBadDirTM).length ≠ 1 := by decide

/-- C3 amended: the validator never raises (it is a total function), its
error list is empty exactly when all seven consistency conditions hold, and
it emits exactly one error per violated elementary check — so a
specification whose only violated category contains a single failing check
gets exactly one error, but a category violated several times (for example
two bad transition entries) gets one error per violation. -/
theorem c3_amended (m : TM) :
    (verify_specification m = [] ↔ specOk m) ∧
    (verify_specification m).length = violationCount m := by
  constructor
  · rw [verify_eq]
    unfold scalarErrors specOk
    simp only [List.append_eq_nil, if_nil_iff_pos, if_nil_iff_neg,
      List.flatten_eq_nil_iff, List.forall_mem_map]
    unfold entryErrors
    simp only [List.append_eq_nil, if_nil_iff_pos, and_assoc]
  · rw [verify_eq]
    unfold scalarErrors violationCount
    simp only [List.length_append, length_if_nil_pos, length_if_nil_neg,
      List.length_flatten, List.map_map]
    rw [show (List.length ∘ entryErrors m) = (fun e =>
        (if e.1.1 ∈ m.Q then 0 else 1) + (if e.1.2 ∈ m.Gamma then 0 else 1) +
        (if e.2.1 ∈ m.Q then 0 else 1) + (if e.2.2.1 ∈ m.Gamma then 0 else 1) +
        (if e.2.2.2 = "L" ∨ e.2.2.2 = "R" then 0 else 1))
      from funext fun e => entryErrors_length m e]

theorem coreNext_miss (m : TM) (c : Core)
    (h : m.delta.lookup (c.state, readSymC m c) = none) :
    coreNext m c =
      { tape := (extendTape m c.tape c.head).1, state := m.qreject,
        head := (extendTape m c.tape c.head).2 } := by
  simp only [coreNext]
  simp only [readSymC] at h
  rw [h]

theorem coreNext_hit (m : TM) (c : Core) (t : String × String × String)
    (h : m.delta.lookup (c.state, readSymC m c) = some t) :
    coreNext m c =
      { tape := (hitTapeC m c t).1, state := t.1, head := (hitTapeC m c t).2 } := by
  simp only [coreNext]
  simp only [readSymC] at h
  rw [h]
  rfl

theorem sampleTail_term (m : TM) (fuel k : Nat) (c : Core) (h : isTerm m c) :
    sampleTail m fuel c k = [] := by
  cases fuel with
  | zero => rfl
  | succ n =>
      unfold sampleTail
      rw [if_pos h]

theorem readSym_eq_readSymC (m : TM) (st : RunState) :
    readSym m st = readSymC m (coreOf st) := rfl

theorem runLoop_configs (m : TM) (fuel : Nat) : ∀ st : RunState,
    (runLoop m fuel st).configs = st.configs ++ sampleTail m fuel (coreOf st) st.step := by
  induction fuel with
  | zero =>
      intro st
      rw [show sampleTail m 0 (coreOf st) st.step = [] from rfl, List.append_nil]
      rfl
  | succ n ih =>
      intro st
      by_cases hterm : st.state = m.qaccept ∨ st.state = m.qreject
      · rw [runLoop_succ_term m n st hterm,
            sampleTail_term m (n + 1) st.step (coreOf st) hterm, List.append_nil]
      · have hni : ¬ isTerm m (coreOf st) := hterm
        rw [show sampleTail m (n + 1) (coreOf st) st.step =
            (if st.step + 1 < 100 ∨ (st.step + 1) % 100 = 0 ∨
                isTerm m (coreNext m (coreOf st))
             then [cfgOf m (coreNext m (coreOf st))] else []) ++
              sampleTail m n (coreNext m (coreOf st)) (st.step + 1) from by
          simp only [sampleTail]
          rw [if_neg hni]]
        cases hl : m.delta.lookup (st.state, readSym m st) with
        | none =>
            have hlc : m.delta.lookup ((coreOf st).state, readSymC m (coreOf st)) = none := hl
            have hcn := coreNext_miss m (coreOf st) hlc
            have htc : isTerm m (coreNext m (coreOf st)) := by
              rw [hcn]; right; rfl
            rw [runLoop_succ_break m n st hterm (by rw [loopIter_miss m st hl])]
            rw [loopIter_miss m st hl]
            rw [sampleTail_term m n (st.step + 1) _ htc, List.append_nil]
            rw [if_pos (Or.inr (Or.inr htc))]
            rw [hcn]
            rfl
        | some t =>
            have hlc : m.delta.lookup ((coreOf st).state, readSymC m (coreOf st)) = some t := hl
            have hcn := coreNext_hit m (coreOf st) t hlc
            have hcont : (loopIter m st).2 = true := by rw [loopIter_hit m st t hl]
            rw [runLoop_succ_cont m n st hterm hcont]
            rw [ih (loopIter m st).1]
            have hcore : coreOf (loopIter m st).1 = coreNext m (coreOf st) := by
              rw [loopIter_hit m st t hl, hcn]
              rfl
            have hstep : (loopIter m st).1.step = st.step + 1 :=
              loopIter_cont_step m st hcont
            rw [hcore, hstep]
            rw [show (loopIter m st).1.configs = st.configs ++
                (if st.step + 1 < 100 ∨ (st.step + 1) % 100 = 0 ∨
                    isTerm m (coreNext m (coreOf st))
                 then [cfgOf m (coreNext m (coreOf st))] else []) from ?_]
            · rw [List.append_assoc]
            · rw [loopIter_hit m st t hl]
              show (if st.step + 1 < 100 ∨ (st.step + 1) % 100 = 0 ∨
                  t.1 = m.qaccept ∨ t.1 = m.qreject
                then st.configs ++
                  [get_configuration m (hitTape m st t).1 t.1 (hitTape m st t).2]
                else st.configs) = _
              rw [hcn]
              have hiff : (st.step + 1 < 100 ∨ (st.step + 1) % 100 = 0 ∨
                  t.1 = m.qaccept ∨ t.1 = m.qreject) ↔
                  (st.step + 1 < 100 ∨ (st.step + 1) % 100 = 0 ∨
                    isTerm m { tape := (hitTapeC m (coreOf st) t).1, state := t.1,
                               head := (hitTapeC m (coreOf st) t).2 }) := Iff.rfl
              by_cases hc : st.step + 1 < 100 ∨ (st.step + 1) % 100 = 0 ∨
                  t.1 = m.qaccept ∨ t.1 = m.qreject
              · rw [if_pos hc, if_pos (hiff.mp hc)]
                rfl
              · rw [if_neg hc, if_neg (fun hx => hc (hiff.mpr hx)), List.append_nil]

theorem capturedStep_iff (m : TM) (c0 : Core) (i : Nat) :
    capturedStep m c0 i = true ↔
      (i < 100 ∨ i % 100 = 0 ∨ isTerm m (coreAt m c0 i)) := by
  unfold capturedStep
  simp [or_assoc]

theorem sampleTail_eq_filter (m : TM) (c0 : Core) (fuel : Nat) : ∀ k : Nat,
    sampleTail m fuel (coreAt m c0 k) k =
      ((List.range' (k + 1) (firstTerm m (coreAt m c0 k) fuel)).filter
        (capturedStep m c0)).map (fun i => cfgOf m (coreAt m c0 i)) := by
  induction fuel with
  | zero => intro k; rfl
  | succ n ih =>
      intro k
      by_cases hterm : isTerm m (coreAt m c0 k)
      · rw [sampleTail_term m (n + 1) k _ hterm]
        rw [show firstTerm m (coreAt m c0 k) (n + 1) = 0 from by
          simp only [firstTerm]; rw [if_pos hterm]]
        rfl
      · have hsucc : coreNext m (coreAt m c0 k) = coreAt m c0 (k + 1) := rfl
        rw [show sampleTail m (n + 1) (coreAt m c0 k) k =
            (if k + 1 < 100 ∨ (k + 1) % 100 = 0 ∨ isTerm m (coreAt m c0 (k + 1))
             then [cfgOf m (coreAt m c0 (k + 1))] else []) ++
              sampleTail m n (coreAt m c0 (k + 1)) (k + 1) from by
          simp only [sampleTail]
          rw [if_neg hterm, hsucc]]
        rw [show firstTerm m (coreAt m c0 k) (n + 1) =
            firstTerm m (coreAt m c0 (k + 1)) n + 1 from by
          simp only [firstTerm]
          rw [if_neg hterm, hsucc]]
        rw [List.range'_succ, List.filter_cons, ih (k + 1)]
        by_cases hc : k + 1 < 100 ∨ (k + 1) % 100 = 0 ∨ isTerm m (coreAt m c0 (k + 1))
        · rw [if_pos hc, if_pos ((capturedStep_iff m c0 (k + 1)).mpr hc), List.map_cons]
          rfl
        · rw [if_neg hc,
              if_neg (fun hx => hc ((capturedStep_iff m c0 (k + 1)).mp hx)),
              List.nil_append]

/-- C4: the trace of a run consists of the initial configuration followed by
exactly the configurations of the captured step indices: every executed
step with index below 100, every executed step whose index is a multiple of
100, and the final step when it lands on a terminal state (including the
missing-transition rejection) — and nothing else.  `firstTerm` is the
number of loop iterations performed within the step budget. -/
theorem c4_sampling (m : TM) (input : String) (max_steps : Nat) :
    (run m input max_steps).1 =
      cfgOf m (initCore m input) ::
        ((List.range' 1 (firstTerm m (initCore m input) max_steps)).filter
          (capturedStep m (initCore m input))).map
          (fun i => cfgOf m (coreAt m (initCore m input) i)) := by
  have h1 : (run m input max_steps).1 = (runLoop m max_steps (initState m input)).configs := rfl
  rw [h1, runLoop_configs m max_steps (initState m input)]
  have h2 : coreOf (initState m input) = initCore m input := rfl
  have h3 : (initState m input).step = 0 := rfl
  have h4 : (initState m input).configs = [cfgOf m (initCore m input)] := rfl
  rw [h2, h3, h4]
  rw [show sampleTail m max_steps (initCore m input) 0 =
      sampleTail m max_steps (coreAt m (initCore m input) 0) 0 from rfl]
  rw [sampleTail_eq_filter m (initCore m input) max_steps 0]
  rfl

theorem joinCells_data (l : List String) :
    (joinCells l).data = (l.map String.data).flatten := by
  induction l with
  | nil => rfl
  | cons s t ih =>
      show (s ++ joinCells t).data = s.data ++ (t.map String.data).flatten
      rw [String.data_append, ih]

theorem joinCells_length (l : List String) (h : ∀ s ∈ l, oneChar s) :
    (joinCells l).data.length = l.length := by
  induction l with
  | nil => rfl
  | cons s t ih =>
      show ((s ++ joinCells t).data).length = t.length + 1
      rw [String.data_append, List.length_append,
          ih (fun x hx => h x (List.mem_cons_of_mem s hx))]
      have hs : s.data.length = 1 := h s (List.mem_cons_self s t)
      omega

theorem joinCells_chars (l : List String) (c : Char) (hc : c ∈ (joinCells l).data) :
    ∃ s ∈ l, c ∈ s.data := by
  rw [joinCells_data, List.mem_flatten] at hc
  obtain ⟨d, hd, hcd⟩ := hc
  rw [List.mem_map] at hd
  obtain ⟨s, hs, rfl⟩ := hd
  exact ⟨s, hs, hcd⟩

theorem joinCells_eq_empty (l : List String) (h : ∀ s ∈ l, oneChar s)
    (he : joinCells l = "") : l = [] := by
  have := joinCells_length l h
  rw [he] at this
  cases l with
  | nil => rfl
  | cons a t => simp at this

theorem oneChar_flatten_inj : ∀ (l1 l2 : List String),
    (∀ s ∈ l1, oneChar s) → (∀ s ∈ l2, oneChar s) →
    (l1.map String.data).flatten = (l2.map String.data).flatten → l1 = l2 := by
  intro l1
  induction l1 with
  | nil =>
      intro l2 _ h2 heq
      cases l2 with
      | nil => rfl
      | cons b t =>
          exfalso
          obtain ⟨cb, hcb⟩ := List.length_eq_one.mp (h2 b (List.mem_cons_self b t))
          rw [List.map_cons, List.flatten_cons, hcb] at heq
          simp at heq
  | cons a t ih =>
      intro l2 h1 h2 heq
      obtain ⟨ca, hca⟩ := List.length_eq_one.mp (h1 a (List.mem_cons_self a t))
      cases l2 with
      | nil =>
          exfalso
          rw [List.map_cons, List.flatten_cons, hca] at heq
          simp at heq
      | cons b t2 =>
          obtain ⟨cb, hcb⟩ := List.length_eq_one.mp (h2 b (List.mem_cons_self b t2))
          rw [List.map_cons, List.flatten_cons, hca,
              List.map_cons, List.flatten_cons, hcb] at heq
          rw [List.cons_append, List.cons_append, List.nil_append, List.nil_append] at heq
          have hc : ca = cb := (List.cons.injEq _ _ _ _ ▸ heq).1
          have htl : (t.map String.data).flatten = (t2.map String.data).flatten :=
            (List.cons.injEq _ _ _ _ ▸ heq).2
          have hab : a = b := String.ext (by rw [hca, hcb, hc])
          rw [hab, ih t2 (fun x hx => h1 x (List.mem_cons_of_mem a hx))
            (fun x hx => h2 x (List.mem_cons_of_mem b hx)) htl]

theorem stripLead_subset (b : String) : ∀ l : List String, ∀ x ∈ stripLead b l, x ∈ l := by
  intro l
  induction l with
  | nil => intro x hx; exact absurd hx (by rw [stripLead]; simp)
  | cons a t ih =>
      cases t with
      | nil => intro x hx; rw [stripLead] at hx; exact hx
      | cons a2 t2 =>
          intro x hx
          rw [stripLead] at hx
          split at hx
          · exact List.mem_cons_of_mem a (ih x hx)
          · exact hx

theorem stripLead_ne_nil (b : String) : ∀ l : List String, l ≠ [] → stripLead b l ≠ [] := by
  intro l
  induction l with
  | nil => intro h; exact absurd rfl h
  | cons a t ih =>
      cases t with
      | nil => intro _; rw [stripLead]; simp
      | cons a2 t2 =>
          intro _
          rw [stripLead]
          split
          · exact ih (by simp)
          · simp

theorem stripLead_head (b : String) : ∀ l : List String,
    (stripLead b l).length ≤ 1 ∨ (stripLead b l).head? ≠ some b := by
  intro l
  induction l with
  | nil => left; rw [stripLead]; simp
  | cons a t ih =>
      cases t with
      | nil => left; rw [stripLead]; simp
      | cons a2 t2 =>
          rw [stripLead]
          split
          · exact ih
          · right
            rename_i hab
            intro hh
            rw [List.head?_cons] at hh
            exact hab (Option.some.inj hh)

theorem trimTape_subset (b : String) (l : List String) : ∀ x ∈ trimTape b l, x ∈ l := by
  intro x hx
  unfold trimTape at hx
  rw [List.mem_reverse] at hx
  exact List.mem_reverse.mp (stripLead_subset b l.reverse x hx)

theorem trimTape_ne_nil (b : String) (l : List String) (h : l ≠ []) : trimTape b l ≠ [] := by
  unfold trimTape
  intro hx
  have h2 : l.reverse ≠ [] := by
    intro hr
    exact h (by simpa using congrArg List.reverse hr)
  exact stripLead_ne_nil b l.reverse h2 (by simpa using congrArg List.reverse hx)

theorem trimTape_last (b : String) (l : List String) :
    (trimTape b l).length ≤ 1 ∨ (trimTape b l).getLast? ≠ some b := by
  unfold trimTape
  rcases stripLead_head b l.reverse with h | h
  · left
    rw [List.length_reverse]
    exact h
  · right
    rw [List.getLast?_reverse]
    exact h

theorem normTape_eq (m : TM) (tape : List String) (h : tape ≠ []) :
    normTape m tape = trimTape m.blank tape := by
  unfold normTape
  rw [if_neg]
  intro hx
  exact trimTape_ne_nil m.blank tape h (List.isEmpty_iff.mp hx)

theorem pyTake_nonneg (l : List String) (i : Int) (h : 0 ≤ i) :
    pyTake l i = l.take i.toNat := by
  unfold pyTake
  rw [if_neg (by omega)]

theorem pyDrop_nonneg (l : List String) (i : Int) (h : 0 ≤ i) :
    pyDrop l i = l.drop i.toNat := by
  unfold pyDrop
  rw [if_neg (by omega)]

theorem get_configuration_data (m : TM) (tape : List String) (q : String) (h : Int) :
    (get_configuration m tape q h).data =
      (left_part m tape h).data ++ (q.data ++ (right_part m tape h).data) := by
  unfold get_configuration
  rw [String.data_append, String.data_append, List.append_assoc]

theorem splitAtMarker_exact (marker : List Char) (c0 : Char) (hm : marker.head? = some c0) :
    ∀ L : List Char, c0 ∉ L → ∀ R : List Char,
      splitAtMarker marker (L ++ (marker ++ R)) = some (L, R) := by
  intro L
  induction L with
  | nil =>
      intro _ R
      rw [List.nil_append]
      cases marker with
      | nil => cases hm
      | cons a mrest =>
          rw [List.cons_append, splitAtMarker,
              if_pos (by
                rw [← List.cons_append]
                exact List.isPrefixOf_iff_prefix.mpr (List.prefix_append (a :: mrest) R)),
              ← List.cons_append, List.drop_left]
  | cons x L2 ih =>
      intro hx R
      rw [List.cons_append, splitAtMarker,
          if_neg (by
            intro hpre
            have hp := List.isPrefixOf_iff_prefix.mp hpre
            obtain ⟨tl, htl⟩ := hp
            cases marker with
            | nil => cases hm
            | cons a mrest =>
                have ha : a = c0 := Option.some.inj hm
                have hxa : x = a := by
                  have := congrArg List.head? htl
                  rw [List.cons_append, List.head?_cons, List.head?_cons] at this
                  exact (Option.some.inj this).symm
                exact hx (by rw [hxa, ha]; exact List.mem_cons_self c0 L2)),
          ih (fun hc => hx (List.mem_cons_of_mem x hc)) R]
      rfl

theorem roundtrip_aux (m : TM) (q : String) (c0 : Char) (tape : List String) (h : Int)
    (hq : q.data.head? = some c0)
    (hn : ∀ s ∈ tape, c0 ∉ s.data)
    (ht : tape ≠ []) (hh : 0 ≤ h) :
    splitAtMarker q.data (get_configuration m tape q h).data =
      some ((left_part m tape h).data, (right_part m tape h).data) := by
  rw [get_configuration_data]
  apply splitAtMarker_exact q.data c0 hq
  intro hc
  have hleft : (left_part m tape h).data =
      (joinCells ((trimTape m.blank tape).take h.toNat)).data := by
    unfold left_part
    rw [pyTake_nonneg _ _ hh, normTape_eq m tape ht]
  rw [hleft] at hc
  obtain ⟨s, hs, hcs⟩ := joinCells_chars _ c0 hc
  exact hn s (trimTape_subset m.blank tape s ((List.take_sublist _ _).mem hs)) hcs

theorem config_inj (m : TM) (q : String) (c0 : Char)
    (tape1 tape2 : List String) (h1 h2 : Int)
    (hq : q.data.head? = some c0) (hb : oneChar m.blank)
    (hcells1 : ∀ s ∈ tape1, oneChar s) (hcells2 : ∀ s ∈ tape2, oneChar s)
    (hn1 : ∀ s ∈ tape1, c0 ∉ s.data) (hn2 : ∀ s ∈ tape2, c0 ∉ s.data)
    (ht1 : tape1 ≠ []) (ht2 : tape2 ≠ [])
    (hh1a : 0 ≤ h1) (hh1b : h1 ≤ ((trimTape m.blank tape1).length : Int))
    (hh2a : 0 ≤ h2) (hh2b : h2 ≤ ((trimTape m.blank tape2).length : Int))
    (heq : get_configuration m tape1 q h1 = get_configuration m tape2 q h2) :
    h1 = h2 ∧ trimTape m.blank tape1 = trimTape m.blank tape2 := by
  have hcellsT1 : ∀ s ∈ trimTape m.blank tape1, oneChar s :=
    fun s hs => hcells1 s (trimTape_subset _ _ s hs)
  have hcellsT2 : ∀ s ∈ trimTape m.blank tape2, oneChar s :=
    fun s hs => hcells2 s (trimTape_subset _ _ s hs)
  have hm1 : h1.toNat ≤ (trimTape m.blank tape1).length := Int.toNat_le.mpr hh1b
  have hm2 : h2.toNat ≤ (trimTape m.blank tape2).length := Int.toNat_le.mpr hh2b
  have hJ1 : (left_part m tape1 h1).data =
      (joinCells ((trimTape m.blank tape1).take h1.toNat)).data := by
    unfold left_part
    rw [pyTake_nonneg _ _ hh1a, normTape_eq m tape1 ht1]
  have hJ2 : (left_part m tape2 h2).data =
      (joinCells ((trimTape m.blank tape2).take h2.toNat)).data := by
    unfold left_part
    rw [pyTake_nonneg _ _ hh2a, normTape_eq m tape2 ht2]
  have rt1 := roundtrip_aux m q c0 tape1 h1 hq hn1 ht1 hh1a
  have rt2 := roundtrip_aux m q c0 tape2 h2 hq hn2 ht2 hh2a
  rw [show (get_configuration m tape1 q h1).data = (get_configuration m tape2 q h2).data
    from by rw [heq]] at rt1
  have hpair := Option.some.inj (rt1.symm.trans rt2)
  have hLd : (left_part m tape1 h1).data = (left_part m tape2 h2).data :=
    congrArg Prod.fst hpair
  have hRd : (right_part m tape1 h1).data = (right_part m tape2 h2).data :=
    congrArg Prod.snd hpair
  have hlen1 : (left_part m tape1 h1).data.length = h1.toNat := by
    rw [hJ1, joinCells_length _ (fun s hs => hcellsT1 s ((List.take_sublist _ _).mem hs)),
        List.length_take]
    omega
  have hlen2 : (left_part m tape2 h2).data.length = h2.toNat := by
    rw [hJ2, joinCells_length _ (fun s hs => hcellsT2 s ((List.take_sublist _ _).mem hs)),
        List.length_take]
    omega
  have hnn : h1.toNat = h2.toNat := by rw [← hlen1, ← hlen2, hLd]
  have hh12 : h1 = h2 := by
    rw [← Int.toNat_of_nonneg hh1a, ← Int.toNat_of_nonneg hh2a, hnn]
  have htake : (trimTape m.blank tape1).take h1.toNat =
      (trimTape m.blank tape2).take h2.toNat := by
    apply oneChar_flatten_inj _ _
      (fun s hs => hcellsT1 s ((List.take_sublist _ _).mem hs))
      (fun s hs => hcellsT2 s ((List.take_sublist _ _).mem hs))
    rw [← joinCells_data, ← joinCells_data, ← hJ1, ← hJ2]
    exact hLd
  have hr1 : right_part m tape1 h1 =
      (if joinCells ((trimTape m.blank tape1).drop h1.toNat) = "" then m.blank
       else joinCells ((trimTape m.blank tape1).drop h1.toNat)) := by
    simp only [right_part]
    rw [pyDrop_nonneg _ _ hh1a, normTape_eq m tape1 ht1]
  have hr2 : right_part m tape2 h2 =
      (if joinCells ((trimTape m.blank tape2).drop h2.toNat) = "" then m.blank
       else joinCells ((trimTape m.blank tape2).drop h2.toNat)) := by
    simp only [right_part]
    rw [pyDrop_nonneg _ _ hh2a, normTape_eq m tape2 ht2]
  by_cases hd1 : (trimTape m.blank tape1).drop h1.toNat = []
  · by_cases hd2 : (trimTape m.blank tape2).drop h2.toNat = []
    · refine ⟨hh12, ?_⟩
      have hfull1 : h1.toNat = (trimTape m.blank tape1).length := by
        have := List.drop_eq_nil_iff.mp hd1
        omega
      have hfull2 : h2.toNat = (trimTape m.blank tape2).length := by
        have := List.drop_eq_nil_iff.mp hd2
        omega
      calc trimTape m.blank tape1
          = (trimTape m.blank tape1).take h1.toNat := by
            rw [hfull1]
            exact (List.take_length _).symm
        _ = (trimTape m.blank tape2).take h2.toNat := htake
        _ = trimTape m.blank tape2 := by
            rw [hfull2]
            exact List.take_length _
    · exfalso
      have hj1 : joinCells ((trimTape m.blank tape1).drop h1.toNat) = "" := by
        rw [hd1]
        rfl
      have hj2ne : joinCells ((trimTape m.blank tape2).drop h2.toNat) ≠ "" := fun he =>
        hd2 (joinCells_eq_empty _
          (fun s hs => hcellsT2 s ((List.drop_sublist _ _).mem hs)) he)
      rw [hr1, if_pos hj1, hr2, if_neg hj2ne] at hRd
      have hjl := joinCells_length ((trimTape m.blank tape2).drop h2.toNat)
        (fun s hs => hcellsT2 s ((List.drop_sublist _ _).mem hs))
      have hlendrop : ((trimTape m.blank tape2).drop h2.toNat).length = 1 := by
        rw [← hjl, ← hRd]
        exact hb
      obtain ⟨s, hs⟩ := List.length_eq_one.mp hlendrop
      rw [hs, joinCells_single] at hRd
      have hsb : s = m.blank := String.ext hRd.symm
      have hT2eq : trimTape m.blank tape2 =
          (trimTape m.blank tape2).take h2.toNat ++ [m.blank] := by
        conv_lhs => rw [← List.take_append_drop h2.toNat (trimTape m.blank tape2)]
        rw [hs, hsb]
      have hlast : (trimTape m.blank tape2).getLast? = some m.blank := by
        rw [hT2eq]
        exact List.getLast?_concat _
      rcases trimTape_last m.blank tape2 with hsmall | hne
      · have hlen2' : (trimTape m.blank tape2).length = h2.toNat + 1 := by
          conv_lhs => rw [hT2eq]
          rw [List.length_append, List.length_take]
          simp
          omega
        have hz1 : h1.toNat = 0 := by omega
        have hT1nil : trimTape m.blank tape1 = [] := by
          rw [← List.drop_zero (trimTape m.blank tape1), ← hz1]
          exact hd1
        exact trimTape_ne_nil m.blank tape1 ht1 hT1nil
      · exact hne hlast
  · by_cases hd2 : (trimTape m.blank tape2).drop h2.toNat = []
    · exfalso
      have hj2 : joinCells ((trimTape m.blank tape2).drop h2.toNat) = "" := by
        rw [hd2]
        rfl
      have hj1ne : joinCells ((trimTape m.blank tape1).drop h1.toNat) ≠ "" := fun he =>
        hd1 (joinCells_eq_empty _
          (fun s hs => hcellsT1 s ((List.drop_sublist _ _).mem hs)) he)
      rw [hr1, if_neg hj1ne, hr2, if_pos hj2] at hRd
      have hjl := joinCells_length ((trimTape m.blank tape1).drop h1.toNat)
        (fun s hs => hcellsT1 s ((List.drop_sublist _ _).mem hs))
      have hlendrop : ((trimTape m.blank tape1).drop h1.toNat).length = 1 := by
        rw [← hjl, hRd]
        exact hb
      obtain ⟨s, hs⟩ := List.length_eq_one.mp hlendrop
      rw [hs, joinCells_single] at hRd
      have hsb : s = m.blank := String.ext hRd
      have hT1eq : trimTape m.blank tape1 =
          (trimTape m.blank tape1).take h1.toNat ++ [m.blank] := by
        conv_lhs => rw [← List.take_append_drop h1.toNat (trimTape m.blank tape1)]
        rw [hs, hsb]
      have hlast : (trimTape m.blank tape1).getLast? = some m.blank := by
        rw [hT1eq]
        exact List.getLast?_concat _
      rcases trimTape_last m.blank tape1 with hsmall | hne
      · have hlen1' : (trimTape m.blank tape1).length = h1.toNat + 1 := by
          conv_lhs => rw [hT1eq]
          rw [List.length_append, List.length_take]
          simp
          omega
        have hz2 : h2.toNat = 0 := by omega
        have hT2nil : trimTape m.blank tape2 = [] := by
          rw [← List.drop_zero (trimTape m.blank tape2), ← hz2]
          exact hd2
        exact trimTape_ne_nil m.blank tape2 ht2 hT2nil
      · exact hne hlast
    · refine ⟨hh12, ?_⟩
      have hj1ne : joinCells ((trimTape m.blank tape1).drop h1.toNat) ≠ "" := fun he =>
        hd1 (joinCells_eq_empty _
          (fun s hs => hcellsT1 s ((List.drop_sublist _ _).mem hs)) he)
      have hj2ne : joinCells ((trimTape m.blank tape2).drop h2.toNat) ≠ "" := fun he =>
        hd2 (joinCells_eq_empty _
          (fun s hs => hcellsT2 s ((List.drop_sublist _ _).mem hs)) he)
      rw [hr1, if_neg hj1ne, hr2, if_neg hj2ne] at hRd
      have hdrop : (trimTape m.blank tape1).drop h1.toNat =
          (trimTape m.blank tape2).drop h2.toNat := by
        apply oneChar_flatten_inj _ _
          (fun s hs => hcellsT1 s ((List.drop_sublist _ _).mem hs))
          (fun s hs => hcellsT2 s ((List.drop_sublist _ _).mem hs))
        rw [← joinCells_data, ← joinCells_data]
        exact hRd
      conv_lhs => rw [← List.take_append_drop h1.toNat (trimTape m.blank tape1)]
      conv_rhs => rw [← List.take_append_drop h2.toNat (trimTape m.blank tape2)]
      rw [htake, hdrop]

/-- C5 counterexample: formatting is not injective up to trailing-blank
equivalence — with state name `"a"` also a tape symbol, heads 0 and 1 over
the blank-free tape `["a", "a"]` format to the same string `"aaa"`, and
with the head allowed past the trimmed length, heads 1 and 2 over `["a"]`
format to the same string; re-splitting `"aaa"` at the marker `"a"` also
fails to recover the original parts. -/
theorem c5_counterexample :
    get_configuration acceptTM ["a", "a"] "a" 0 = get_configuration acceptTM ["a", "a"] "a" 1 ∧
    (0 : Int) ≠ 1 ∧
    trimTape acceptTM.blank ["a", "a"] = ["a", "a"] ∧
    get_configuration acceptTM ["a"] "q" 1 = get_configuration acceptTM ["a"] "q" 2 ∧
    (1 : Int) ≠ 2 ∧
    splitAtMarker ("a").data (get_configuration acceptTM ["a", "a"] "a" 1).data ≠
      some ((left_part acceptTM ["a", "a"] 1).data, (right_part acceptTM ["a", "a"] 1).data) := by
  decide

/-- C5 amended: under the conditions that every tape cell and the blank are
single characters, the state marker is non-empty and its first character
occurs in no tape cell, and each head lies in `[0, trimmed length]`, the
configuration formatter is injective up to trailing-blank equivalence
(equal strings force equal heads and equal trimmed tapes) and re-splitting
the formatted string at the first occurrence of the state marker recovers
the `(left, state, right)` triple. -/
theorem c5_amended (m : TM) (q : String) (c0 : Char)
    (tape1 tape2 : List String) (h1 h2 : Int)
    (hq : q.data.head? = some c0) (hb : oneChar m.blank)
    (hcells1 : ∀ s ∈ tape1, oneChar s) (hcells2 : ∀ s ∈ tape2, oneChar s)
    (hn1 : ∀ s ∈ tape1, c0 ∉ s.data) (hn2 : ∀ s ∈ tape2, c0 ∉ s.data)
    (ht1 : tape1 ≠ []) (ht2 : tape2 ≠ [])
    (hh1a : 0 ≤ h1) (hh1b : h1 ≤ ((trimTape m.blank tape1).length : Int))
    (hh2a : 0 ≤ h2) (hh2b : h2 ≤ ((trimTape m.blank tape2).length : Int)) :
    splitAtMarker q.data (get_configuration m tape1 q h1).data =
      some ((left_part m tape1 h1).data, (right_part m tape1 h1).data) ∧
    splitAtMarker q.data (get_configuration m tape2 q h2).data =
      some ((left_part m tape2 h2).data, (right_part m tape2 h2).data) ∧
    (get_configuration m tape1 q h1 = get_configuration m tape2 q h2 →
      h1 = h2 ∧ trimTape m.blank tape1 = trimTape m.blank tape2) :=
  ⟨roundtrip_aux m q c0 tape1 h1 hq hn1 ht1 hh1a,
   roundtrip_aux m q c0 tape2 h2 hq hn2 ht2 hh2a,
   fun heq => config_inj m q c0 tape1 tape2 h1 h2 hq hb hcells1 hcells2
     hn1 hn2 ht1 ht2 hh1a hh1b hh2a hh2b heq⟩

theorem c5_witness :
    splitAtMarker ("q").data (get_configuration acceptTM ["a"] "q" 0).data =
      some ((left_part acceptTM ["a"] 0).data, (right_part acceptTM ["a"] 0).data) ∧
    ((0 : Int) = 0 ∧ trimTape acceptTM.blank ["a"] = trimTape acceptTM.blank ["a"]) :=
  ⟨(c5_amended acceptTM "q" 'q' ["a"] ["a"] 0 0 (by decide) (by decide) (by decide)
      (by decide) (by decide) (by decide) (by decide) (by decide) (by decide) (by decide)
      (by decide) (by decide)).1,
   (c5_amended acceptTM "q" 'q' ["a"] ["a"] 0 0 (by decide) (by decide) (by decide)
      (by decide) (by decide) (by decide) (by decide) (by decide) (by decide) (by decide)
      (by decide) (by decide)).2.2 rfl⟩
